import Mathlib

/-!
# Verification of the FragCoder AI chat conversation tree

Shallow embedding of the branching chat state manager of the Shader-Playground
repository (frontend `useChatState` hook and the `AIPanel` handlers that drive
it).  Messages are stored flat and linked by `parentId`; a branch-selector map
picks the active sibling at each branch point; `displayMessages` projects the
tree onto the single linear conversation shown to the user; a small task
pipeline tracks generate/compile progress.

Modelling conventions:
* TypeScript `string` ids are Lean `String`s; the nondeterministic
  `crypto.randomUUID()` calls become explicit `id`/`artifactId` arguments.
* The JS `Map<string, number>` of active branches becomes a function
  `String → Option Int` (`get`/`set` have exactly the Map semantics).
* JS array indexing `arr[i]` (which yields `undefined` out of range, also for
  negative `i`) becomes `jsIndex : List α → Int → Option α`.
* The two recursions of the source (`traverse` in `displayMessages`, and
  `collectDescendants` in `deleteDescendants`) are general recursions in JS;
  they are embedded with an explicit recursion-depth fuel.  `none` from the
  fueled collector means the recursion exceeded the given depth.
* React `setState` updates become pure `ChatState → ChatState` functions.
-/

/-- `from` field of a `ChatMessageNode`: `'user' | 'assistant'`. -/
inductive Role where
  | user : Role
  | assistant : Role
deriving DecidableEq, Repr

/-- Flip a role; used to express strict alternation of the display sequence. -/
def Role.other : Role → Role
  | .user => .assistant
  | .assistant => .user

/-- `type` field of a `CodeArtifact`: `'user-context' | 'generated'`. -/
inductive ArtifactType where
  | userContext : ArtifactType
  | generated : ArtifactType
deriving DecidableEq, Repr

/-- A code artifact attached to a message (`CodeArtifact` in `types/chat.ts`,
with the optional `thumbnail` field used by `useChatState`). -/
structure CodeArtifact where
  id : String
  type : ArtifactType
  code : String
  label : String
  thumbnail : Option String := none
deriving DecidableEq, Repr

/-- A node of the conversation tree (`ChatMessageNode` in `types/chat.ts`).
The source field `from` is a Lean keyword and is embedded as `from_`. -/
structure ChatMessageNode where
  id : String
  parentId : Option String
  from_ : Role
  content : String
  timestamp : Nat
  isError : Option Bool := none
  codeArtifact : Option CodeArtifact := none
deriving DecidableEq, Repr

/-- Status of one pipeline step (`TaskStepStatus`). -/
inductive StepStatus where
  | pending : StepStatus
  | in_progress : StepStatus
  | complete : StepStatus
  | error : StepStatus
deriving DecidableEq, Repr

/-- One step of the AI pipeline (`TaskStep`). -/
structure TaskStep where
  id : String
  label : String
  status : StepStatus
deriving DecidableEq, Repr

/-- Overall task status (`TaskStatus`). -/
inductive TaskStatus where
  | idle : TaskStatus
  | thinking : TaskStatus
  | compiling : TaskStatus
  | complete : TaskStatus
  | error : TaskStatus
deriving DecidableEq, Repr

/-- `TaskState` of `types/chat.ts`. -/
structure TaskState where
  status : TaskStatus
  steps : List TaskStep
deriving DecidableEq, Repr

/-- `INITIAL_TASK_STATE` of `useChatState`. -/
def INITIAL_TASK_STATE : TaskState := { status := .idle, steps := [] }

/-- `createPipelineSteps` of `useChatState`. -/
def createPipelineSteps : List TaskStep :=
  [ { id := "generate", label := "Generating shader...", status := .pending },
    { id := "compile", label := "Compiling GLSL...", status := .pending } ]

/-- `BranchInfo` of `types/chat.ts`; the active index is an unclamped JS
number, embedded as `Int`. -/
structure BranchInfo where
  count : Nat
  activeIndex : Int
deriving DecidableEq, Repr

/-- The three `useState` cells of `useChatState` bundled into one state
record: the flat message list, the active-branch map, and the task state. -/
structure ChatState where
  messages : List ChatMessageNode
  activeBranches : String → Option Int
  taskState : TaskState

/-- `activeBranches.get(key) ?? 0`. -/
def branchGet (branches : String → Option Int) (key : String) : Int :=
  (branches key).getD 0

/-- `Map.set`: overwrite the entry for `key`. -/
def branchSet (branches : String → Option Int) (key : String) (idx : Int) :
    String → Option Int :=
  fun k => if k = key then some idx else branches k

/-- JS array subscription `l[i]`: `undefined` (`none`) when `i` is negative or
at least the length. -/
def jsIndex {α : Type} (l : List α) (i : Int) : Option α :=
  if i < 0 then none else l.get? i.toNat

/-- The root-level user messages: `messages.filter(m => m.parentId === null &&
m.from === 'user')`. -/
def rootUsers (msgs : List ChatMessageNode) : List ChatMessageNode :=
  msgs.filter (fun m => m.parentId == none && m.from_ == Role.user)

/-- The inner `traverse` closure of `displayMessages` (named `traverseActive`
here because Mathlib already has a root `traverse`): append the user
message, its (at most one) assistant response, and recurse into the active
follow-up branch.  `fuel` bounds the recursion depth of the JS recursion. -/
def traverseActive (msgs : List ChatMessageNode) (branches : String → Option Int) :
    Nat → ChatMessageNode → List ChatMessageNode
  | 0, _ => []
  | fuel + 1, userMessage =>
    userMessage ::
      match msgs.find? (fun m =>
          m.parentId == some userMessage.id && m.from_ == Role.assistant) with
      | none => []
      | some assistantResponse =>
        assistantResponse ::
          (let followUpUsers := msgs.filter (fun m =>
              m.parentId == some assistantResponse.id && m.from_ == Role.user)
           if 0 < followUpUsers.length then
             match jsIndex followUpUsers
                 (min (branchGet branches assistantResponse.id)
                   ((followUpUsers.length : Int) - 1)) with
             | some activeFollowUp => traverseActive msgs branches fuel activeFollowUp
             | none => []
           else [])

/-- `displayMessages` of `useChatState`: the flattened active conversation.
The fuel `s.messages.length` suffices for every store the recursion reaches
the bottom of, since each recursive call consumes one stored user node. -/
def displayMessages (s : ChatState) : List ChatMessageNode :=
  let rootUserMessages := rootUsers s.messages
  if rootUserMessages.length = 0 then []
  else
    let activeRootIndex := branchGet s.activeBranches "root"
    match jsIndex rootUserMessages
        (min activeRootIndex ((rootUserMessages.length : Int) - 1)) with
    | some activeRootUser =>
        traverseActive s.messages s.activeBranches s.messages.length activeRootUser
    | none => []

/-- `getBranchInfo` of `useChatState`. -/
def getBranchInfo (s : ChatState) (userMessageId : String) : BranchInfo :=
  match s.messages.find? (fun m => m.id == userMessageId) with
  | none => { count := 1, activeIndex := 0 }
  | some msg =>
    let siblings := s.messages.filter (fun m =>
      m.parentId == msg.parentId && m.from_ == Role.user)
    { count := siblings.length
      activeIndex := branchGet s.activeBranches (msg.parentId.getD "root") }

/-- `setActiveBranch` of `useChatState`. -/
def setActiveBranch (s : ChatState) (parentKey : String) (branchIndex : Int) :
    ChatState :=
  { s with activeBranches := branchSet s.activeBranches parentKey branchIndex }

/-- The node built by `addUserMessage`: an artifact is attached only when
`codeContext` is truthy — present *and* non-empty.  The fresh UUIDs become
the `id`/`artifactId` arguments, `Date.now()` the `timestamp` argument. -/
def mkUserMessage (content : String) (codeContext : Option String)
    (parentId : Option String) (thumbnail : Option String)
    (id artifactId : String) (timestamp : Nat) : ChatMessageNode :=
  { id := id
    parentId := parentId
    from_ := .user
    content := content
    timestamp := timestamp
    isError := none
    codeArtifact := codeContext.bind (fun c =>
      if c = "" then none
      else some { id := artifactId, type := .userContext, code := c,
                  label := "Code sent", thumbnail := thumbnail }) }

/-- `addUserMessage` of `useChatState`: append the new user node. -/
def addUserMessage (s : ChatState) (content : String)
    (codeContext : Option String) (parentId : Option String)
    (thumbnail : Option String) (id artifactId : String) (timestamp : Nat) :
    ChatState :=
  { s with messages :=
      s.messages ++ [mkUserMessage content codeContext parentId thumbnail
        id artifactId timestamp] }

/-- The node built by `addAssistantMessage`: an artifact is attached only when
`generatedCode` is truthy — present *and* non-empty. -/
def mkAssistantMessage (parentUserMessageId content : String)
    (generatedCode : Option String) (isError : Option Bool)
    (thumbnail : Option String) (id artifactId : String) (timestamp : Nat) :
    ChatMessageNode :=
  { id := id
    parentId := some parentUserMessageId
    from_ := .assistant
    content := content
    timestamp := timestamp
    isError := isError
    codeArtifact := generatedCode.bind (fun c =>
      if c = "" then none
      else some { id := artifactId, type := .generated, code := c,
                  label := "Generated shader", thumbnail := thumbnail }) }

/-- `addAssistantMessage` of `useChatState`: append the new assistant node. -/
def addAssistantMessage (s : ChatState) (parentUserMessageId content : String)
    (generatedCode : Option String) (isError : Option Bool)
    (thumbnail : Option String) (id artifactId : String) (timestamp : Nat) :
    ChatState :=
  { s with messages :=
      s.messages ++ [mkAssistantMessage parentUserMessageId content
        generatedCode isError thumbnail id artifactId timestamp] }

/-- The `collectDescendants` closure of `deleteDescendants`, embedded with an
explicit recursion-depth fuel: for every child of `id` it records the child's
id and recurses into the child.  There is no visited-set check before the
recursive call in the source, so on cyclic `parentId` data the JS recursion
never returns; the fueled embedding returns `none` when the recursion is
still descending after `fuel` levels. -/
def collectDescendants (msgs : List ChatMessageNode) :
    Nat → String → Option (List String)
  | 0, _ => none
  | fuel + 1, id =>
    (msgs.filter (fun m => m.parentId == some id)).foldr
      (fun child acc =>
        match collectDescendants msgs fuel child.id, acc with
        | some sub, some rest => some (child.id :: (sub ++ rest))
        | _, _ => none)
      (some [])

/-- The folding step of `collectDescendants`, named for the proofs. -/
def collectStep (msgs : List ChatMessageNode) (fuel : Nat)
    (child : ChatMessageNode) (acc : Option (List String)) :
    Option (List String) :=
  match collectDescendants msgs fuel child.id, acc with
  | some sub, some rest => some (child.id :: (sub ++ rest))
  | _, _ => none

theorem collectDescendants_succ (msgs : List ChatMessageNode) (fuel : Nat)
    (id : String) :
    collectDescendants msgs (fuel + 1) id =
      (msgs.filter (fun m => m.parentId == some id)).foldr
        (collectStep msgs fuel) (some []) := rfl

/-- `deleteDescendants` of `useChatState`: remove every collected descendant
of `parentId` from the store.  `none` models the source recursion failing to
terminate (it can only happen on cyclic `parentId` data). -/
def deleteDescendants (msgs : List ChatMessageNode) (parentId : String) :
    Option (List ChatMessageNode) :=
  (collectDescendants msgs (msgs.length + 1) parentId).map
    (fun idsToDelete => msgs.filter (fun m => !(idsToDelete.contains m.id)))

/-- Result of `prepareRetry`: the original prompt and its code context. -/
structure RetryInfo where
  content : String
  codeContext : Option String
deriving DecidableEq, Repr

/-- `prepareRetry` of `useChatState`.  The outer `Option` is the modelling
device for the deletion recursion not terminating; `some (none, s)` is the
source's `return null` (unknown id or non-user node, state untouched);
`some (some info, s')` is a completed retry preparation. -/
def prepareRetry (s : ChatState) (userMessageId : String) :
    Option (Option RetryInfo × ChatState) :=
  match s.messages.find? (fun m => m.id == userMessageId) with
  | none => some (none, s)
  | some userMessage =>
    if userMessage.from_ == Role.user then
      match deleteDescendants s.messages userMessageId with
      | none => none
      | some msgs =>
        some (some { content := userMessage.content
                     codeContext := userMessage.codeArtifact.map (fun a => a.code) },
              { s with messages := msgs })
    else some (none, s)

/-- `startTask` of `useChatState`: fresh pipeline steps with the first one
(`steps[0].status = 'in_progress'`) already running. -/
def startTask (s : ChatState) : ChatState :=
  { s with taskState :=
      { status := .thinking
        steps := createPipelineSteps.modifyHead
          (fun step => { step with status := .in_progress }) } }

/-- `setCompiling` of `useChatState`. -/
def setCompiling (s : ChatState) : ChatState :=
  { s with taskState :=
      { status := .compiling
        steps := s.taskState.steps.map (fun step =>
          if step.id == "generate" then { step with status := .complete }
          else if step.id == "compile" then { step with status := .in_progress }
          else step) } }

/-- `completeTask` of `useChatState` (the immediate transition; the delayed
`setTimeout` reset to idle is modelled by `resetTask` applied afterwards). -/
def completeTask (s : ChatState) : ChatState :=
  { s with taskState :=
      { status := .complete
        steps := s.taskState.steps.map (fun step =>
          { step with status := .complete }) } }

/-- `errorTask` of `useChatState`: mark the in-progress step as errored. -/
def errorTask (s : ChatState) : ChatState :=
  { s with taskState :=
      { status := .error
        steps := s.taskState.steps.map (fun step =>
          if step.status == .in_progress then { step with status := .error }
          else step) } }

/-- `resetTask` of `useChatState` (also the body of `completeTask`'s delayed
`setTimeout` callback). -/
def resetTask (s : ChatState) : ChatState :=
  { s with taskState := INITIAL_TASK_STATE }

/-- Outcome of the `sendPrompt` call awaited by `AIPanel.callAPI`: either a
parsed `{code, explanation}` response or a thrown error's message. -/
inductive GenResult where
  | ok : (code : String) → (explanation : String) → GenResult
  | err : (message : String) → GenResult
deriving DecidableEq, Repr

/-- `callAPI` of `AIPanel` as a state transformer, with the awaited
`sendPrompt` outcome passed in as `result`.  Editor-side effects
(`setCodeAndCompile`, thumbnail capture) are outside the chat state; the
captured thumbnail and the fresh UUIDs are arguments.  On success the source
runs `setCompiling`, adds the assistant node (explicit `isError: false`),
then `completeTask`; on a thrown error it runs `errorTask` and adds an error
assistant node with no generated code and no thumbnail. -/
def callAPI (s : ChatState) (userMessageId : String) (result : GenResult)
    (thumbnail : Option String) (newId artifactId : String) (timestamp : Nat) :
    ChatState :=
  let s0 := startTask s
  match result with
  | .ok code explanation =>
    completeTask (addAssistantMessage (setCompiling s0) userMessageId
      explanation (some code) (some false) thumbnail newId artifactId timestamp)
  | .err message =>
    addAssistantMessage (errorTask s0) userMessageId message none (some true)
      none newId artifactId timestamp

/-- `handleEdit` of `AIPanel`, up to (and excluding) the trailing `callAPI`
call: look up the original node, create a sibling user node carrying the
original code context and thumbnail, and immediately switch the branch
selector of the parent key to the new sibling's index.  `none` is the
source's early `return` on an unknown id (the `isLoading` UI guard is not
part of the chat state).  The fresh UUIDs and `Date.now()` are arguments. -/
def handleEdit (s : ChatState) (userMessageId newContent : String)
    (newId artifactId : String) (timestamp : Nat) :
    Option (ChatState × String) :=
  match s.messages.find? (fun m => m.id == userMessageId) with
  | none => none
  | some originalMessage =>
    let codeContext := originalMessage.codeArtifact.map (fun a => a.code)
    let thumbnail := originalMessage.codeArtifact.bind (fun a => a.thumbnail)
    let parentId := originalMessage.parentId
    let parentKey := parentId.getD "root"
    let currentSiblings := s.messages.filter (fun m =>
      m.parentId == parentId && m.from_ == Role.user)
    let newBranchIndex := currentSiblings.length
    let s1 := addUserMessage s newContent codeContext parentId thumbnail
      newId artifactId timestamp
    some (setActiveBranch s1 parentKey (newBranchIndex : Int), newId)

/-- Strict role alternation of a message list, starting with role `r`. -/
def altFromB (r : Role) : List ChatMessageNode → Bool
  | [] => true
  | m :: rest => (m.from_ == r) && altFromB r.other rest

/-! ## Helper lemmas -/

theorem jsIndex_mem {α : Type} {l : List α} {i : Int} {x : α}
    (h : jsIndex l i = some x) : x ∈ l := by
  unfold jsIndex at h
  split at h
  · simp at h
  · exact List.get?_mem h

theorem jsIndex_of_nonneg {α : Type} {l : List α} {i : Int} (h0 : 0 ≤ i) :
    jsIndex l i = l.get? i.toNat := by
  simp [jsIndex, not_lt.mpr h0]

theorem jsIndex_neg {α : Type} {l : List α} {i : Int} (h : i < 0) :
    jsIndex l i = none := by
  simp [jsIndex, h]

theorem mem_rootUsers {msgs : List ChatMessageNode} {m : ChatMessageNode}
    (h : m ∈ rootUsers msgs) :
    m ∈ msgs ∧ m.parentId = none ∧ m.from_ = Role.user := by
  simpa [rootUsers, List.mem_filter] using h

/-- Every node the `traverse` closure emits is a stored node. -/
theorem traverse_subset (msgs : List ChatMessageNode)
    (branches : String → Option Int) :
    ∀ (fuel : Nat) (u : ChatMessageNode), u ∈ msgs →
      ∀ m ∈ traverseActive msgs branches fuel u, m ∈ msgs := by
  intro fuel
  induction fuel with
  | zero => intro u _ m hm; simp [traverseActive] at hm
  | succ n ih =>
    intro u hu m hm
    cases hfind : msgs.find? (fun x =>
        x.parentId == some u.id && x.from_ == Role.assistant) with
    | none =>
      simp only [traverseActive, hfind] at hm
      simp at hm
      exact hm ▸ hu
    | some a =>
      have ha : a ∈ msgs := List.mem_of_find?_eq_some hfind
      simp only [traverseActive, hfind] at hm
      rcases List.mem_cons.mp hm with rfl | hm
      · exact hu
      rcases List.mem_cons.mp hm with rfl | hm
      · exact ha
      split at hm
      · split at hm
        · rename_i next hnext
          have hmem := jsIndex_mem hnext
          have hnm : next ∈ msgs := (List.mem_filter.mp hmem).1
          exact ih next hnm m hm
        · simp at hm
      · simp at hm

/-- The `traverse` closure alternates roles strictly, starting from the user
node it is called on. -/
theorem traverse_alt (msgs : List ChatMessageNode)
    (branches : String → Option Int) :
    ∀ (fuel : Nat) (u : ChatMessageNode), u.from_ = Role.user →
      altFromB Role.user (traverseActive msgs branches fuel u) = true := by
  intro fuel
  induction fuel with
  | zero => intro u _; simp [traverseActive, altFromB]
  | succ n ih =>
    intro u hu
    cases hfind : msgs.find? (fun x =>
        x.parentId == some u.id && x.from_ == Role.assistant) with
    | none => simp [traverseActive, hfind, altFromB, Role.other, hu]
    | some a =>
      have hpa := List.find?_some hfind
      have hafrom : a.from_ = Role.assistant := by
        simp only [Bool.and_eq_true, beq_iff_eq] at hpa
        exact hpa.2
      simp only [traverseActive, hfind, altFromB, Role.other, Bool.and_eq_true,
        beq_iff_eq]
      refine ⟨hu, hafrom, ?_⟩
      split
      · split
        · rename_i next hnext
          have hmem := jsIndex_mem hnext
          have : next.from_ = Role.user := by
            have := (List.mem_filter.mp hmem).2
            simp only [Bool.and_eq_true, beq_iff_eq] at this
            exact this.2
          exact ih next this
        · simp [altFromB]
      · simp [altFromB]

/-- The head of a `traverse` call with positive fuel is the user node the
call starts from. -/
theorem traverse_head (msgs : List ChatMessageNode)
    (branches : String → Option Int) (fuel : Nat) (u : ChatMessageNode)
    (h : fuel ≠ 0) :
    (traverseActive msgs branches fuel u).head? = some u := by
  cases fuel with
  | zero => exact absurd rfl h
  | succ n => simp [traverseActive]

/-! ## Concrete example states for witnesses and counterexamples -/

def exUser : ChatMessageNode :=
  { id := "u1", parentId := none, from_ := .user, content := "make a sunset",
    timestamp := 0 }

def exAssistant : ChatMessageNode :=
  { id := "a1", parentId := some "u1", from_ := .assistant,
    content := "here you go", timestamp := 1 }

def exFollowUp : ChatMessageNode :=
  { id := "u2", parentId := some "a1", from_ := .user,
    content := "more orange", timestamp := 2 }

def exMessages : List ChatMessageNode := [exUser, exAssistant, exFollowUp]

/-- An empty branch-selector map. -/
def noBranches : String → Option Int := fun _ => none

def exState : ChatState :=
  { messages := exMessages, activeBranches := noBranches,
    taskState := INITIAL_TASK_STATE }

def emptyState : ChatState :=
  { messages := [], activeBranches := noBranches,
    taskState := INITIAL_TASK_STATE }

/-- A branch-selector map holding a negative root index. -/
def negBranches : String → Option Int :=
  fun k => if k = "root" then some (-1) else none

def negState : ChatState :=
  { messages := [exUser], activeBranches := negBranches,
    taskState := INITIAL_TASK_STATE }

/-! ## C3: alternation invariant -/

/-- **C3**: for every message store and branch-selector state, the roles in
the computed display sequence strictly alternate starting with `user` at
index 0, and the empty store yields the empty sequence. -/
theorem display_alternation (s : ChatState) :
    altFromB Role.user (displayMessages s) = true ∧
      (s.messages = [] → displayMessages s = []) := by
  constructor
  · simp only [displayMessages]
    split
    · simp [altFromB]
    · split
      · rename_i r hr
        exact traverse_alt s.messages s.activeBranches s.messages.length r
          (mem_rootUsers (jsIndex_mem hr)).2.2
      · simp [altFromB]
  · intro h
    simp [displayMessages, rootUsers, h]

/-- Witness for C3 on concrete stores: a three-node conversation alternates
and the empty store displays nothing. -/
theorem display_alternation_witness :
    altFromB Role.user (displayMessages exState) = true ∧
      displayMessages emptyState = [] :=
  ⟨(display_alternation exState).1, (display_alternation emptyState).2 rfl⟩

/-! ## C1: clamp safety (corrected) -/

/-- **C1 counterexample**: the store holds one root user message and the
stored root branch index is `-1` (out of range below).  The projector does
not clamp it into `[0, count-1]`: no root is selected and the display
sequence is empty, so the selected root is *not* an element of the root
sibling list as the claim states. -/
theorem display_clamp_counterexample :
    rootUsers negState.messages = [exUser] ∧
      negState.activeBranches "root" = some (-1) ∧
      displayMessages negState = [] := by
  refine ⟨by decide, by decide, by decide⟩

/-- **C1 (amended)**: computing the display sequence never crashes for any
stored branch index — the projection is total and emits only stored nodes —
and a stored root index that is `≥ 0` (in particular any index `≥ count`)
is clamped from above to `count-1`, so the selected root exists, is an
element of the root sibling list, and heads the sequence.  A *negative*
stored root index, however, is not clamped to `0`: no root is selected and
the display sequence is empty. -/
theorem display_clamp_safety (s : ChatState) :
    (∀ m ∈ displayMessages s, m ∈ s.messages) ∧
    (0 ≤ branchGet s.activeBranches "root" → rootUsers s.messages ≠ [] →
      ∃ r ∈ rootUsers s.messages, (displayMessages s).head? = some r) ∧
    (branchGet s.activeBranches "root" < 0 → displayMessages s = []) := by
  refine ⟨?_, ?_, ?_⟩
  · intro m hm
    simp only [displayMessages] at hm
    split at hm
    · simp at hm
    · split at hm
      · rename_i r hr
        exact traverse_subset s.messages s.activeBranches s.messages.length r
          (mem_rootUsers (jsIndex_mem hr)).1 m hm
      · simp at hm
  · intro h0 hne
    simp only [displayMessages]
    split
    · rename_i hlen
      exact absurd (List.length_eq_zero.mp hlen) hne
    · rename_i hlen
      have hn : 0 < (rootUsers s.messages).length := Nat.pos_of_ne_zero hlen
      have hn1 : (1 : Int) ≤ ((rootUsers s.messages).length : Int) := by
        exact_mod_cast hn
      have hi0 : 0 ≤ min (branchGet s.activeBranches "root")
          (((rootUsers s.messages).length : Int) - 1) :=
        le_min h0 (by omega)
      have hle : min (branchGet s.activeBranches "root")
          (((rootUsers s.messages).length : Int) - 1) ≤
          ((rootUsers s.messages).length : Int) - 1 := min_le_right _ _
      have hilt : (min (branchGet s.activeBranches "root")
          (((rootUsers s.messages).length : Int) - 1)).toNat <
          (rootUsers s.messages).length := by omega
      rw [jsIndex_of_nonneg hi0, List.get?_eq_get hilt]
      refine ⟨(rootUsers s.messages).get
        ⟨(min (branchGet s.activeBranches "root")
          (((rootUsers s.messages).length : Int) - 1)).toNat, hilt⟩,
        List.get_mem _ _ _, ?_⟩
      apply traverse_head
      intro hzero
      have : s.messages = [] := List.length_eq_zero.mp hzero
      obtain ⟨r, hr⟩ := List.exists_mem_of_ne_nil _ hne
      have := (mem_rootUsers hr).1
      simp [‹s.messages = []›] at this
  · intro hneg
    simp only [displayMessages]
    split
    · rfl
    · rw [jsIndex_neg (lt_of_le_of_lt (min_le_left _ _) hneg)]

/-- Witness for the amended C1: on a concrete one-root store with no stored
index the selected root exists and heads the display sequence. -/
theorem display_clamp_safety_witness :
    ∃ r ∈ rootUsers exState.messages, (displayMessages exState).head? = some r :=
  (display_clamp_safety exState).2.1 (by decide) (by decide)

/-! ## C5: lookups on unknown ids -/

/-- **C5**: for every id not present in the message store, `prepareRetry`
returns the `null` result with the state untouched, `getBranchInfo` returns
its not-found default `{count: 1, activeIndex: 0}`, and the `handleEdit`
lookup comes back absent so the edit no-ops; none of the lookups fails. -/
theorem lookup_unknown_id (s : ChatState) (id : String)
    (h : ∀ m ∈ s.messages, m.id ≠ id) :
    prepareRetry s id = some (none, s) ∧
    getBranchInfo s id = { count := 1, activeIndex := 0 } ∧
    ∀ newContent newId artifactId timestamp,
      handleEdit s id newContent newId artifactId timestamp = none := by
  have hfind : s.messages.find? (fun m => m.id == id) = none := by
    rw [List.find?_eq_none]
    intro a ha
    simpa using h a ha
  refine ⟨?_, ?_, ?_⟩
  · simp [prepareRetry, hfind]
  · simp [getBranchInfo, hfind]
  · intro newContent newId artifactId timestamp
    simp [handleEdit, hfind]

/-- Witness for C5 on a concrete store and the absent id `"zzz"`. -/
theorem lookup_unknown_id_witness :
    prepareRetry exState "zzz" = some (none, exState) ∧
    getBranchInfo exState "zzz" = { count := 1, activeIndex := 0 } ∧
    handleEdit exState "zzz" "new text" "n1" "n2" 9 = none :=
  ⟨(lookup_unknown_id exState "zzz" (by decide)).1,
   (lookup_unknown_id exState "zzz" (by decide)).2.1,
   (lookup_unknown_id exState "zzz" (by decide)).2.2 "new text" "n1" "n2" 9⟩

/-! ## C6: generation failure -/

/-- **C6**: when the generate call throws, the resulting state holds a new
assistant node whose `isError` flag is true, whose content is the error
message and which carries no code artifact, and the task pipeline status is
`error`. -/
theorem generation_failure (s : ChatState) (userMessageId message : String)
    (thumbnail : Option String) (newId artifactId : String) (timestamp : Nat) :
    (callAPI s userMessageId (.err message) thumbnail newId artifactId
        timestamp).messages =
      s.messages ++ [mkAssistantMessage userMessageId message none (some true)
        none newId artifactId timestamp] ∧
    (mkAssistantMessage userMessageId message none (some true) none newId
      artifactId timestamp).isError = some true ∧
    (mkAssistantMessage userMessageId message none (some true) none newId
      artifactId timestamp).content = message ∧
    (mkAssistantMessage userMessageId message none (some true) none newId
      artifactId timestamp).codeArtifact = none ∧
    (callAPI s userMessageId (.err message) thumbnail newId artifactId
      timestamp).taskState.status = .error :=
  ⟨rfl, rfl, rfl, rfl, rfl⟩

/-! ## C8: task pipeline lifecycle -/

/-- **C8**: `start → setCompiling → complete` ends with status `complete` and
both steps complete, and the delayed reset then yields the idle initial
state; `start → fail` instead marks the in-progress `generate` step as
`error`, leaves the pipeline in status `error`, and the next `start` resets
the steps to a fresh thinking state. -/
theorem task_pipeline_lifecycle (s : ChatState) :
    (completeTask (setCompiling (startTask s))).taskState =
      { status := .complete
        steps := [ { id := "generate", label := "Generating shader...",
                     status := .complete },
                   { id := "compile", label := "Compiling GLSL...",
                     status := .complete } ] } ∧
    (resetTask (completeTask (setCompiling (startTask s)))).taskState =
      INITIAL_TASK_STATE ∧
    (errorTask (startTask s)).taskState =
      { status := .error
        steps := [ { id := "generate", label := "Generating shader...",
                     status := .error },
                   { id := "compile", label := "Compiling GLSL...",
                     status := .pending } ] } ∧
    (startTask (errorTask (startTask s))).taskState =
      { status := .thinking
        steps := [ { id := "generate", label := "Generating shader...",
                     status := .in_progress },
                   { id := "compile", label := "Compiling GLSL...",
                     status := .pending } ] } := by
  refine ⟨?_, ?_, ?_, ?_⟩ <;> rfl

/-! ## C9: artifact attachment is string truthiness -/

/-- **C9**: a user node built with empty-string code context, and an
assistant node built with empty-string generated code, carry no code
artifact; in general an artifact is attached exactly when the supplied code
string is present and non-empty (string truthiness, not argument
presence). -/
theorem artifact_truthiness (content : String) (parentId : Option String)
    (thumbnail : Option String) (id artifactId : String) (timestamp : Nat)
    (parentUserMessageId explanation : String) (isErr : Option Bool) :
    (mkUserMessage content (some "") parentId thumbnail id artifactId
      timestamp).codeArtifact = none ∧
    (mkAssistantMessage parentUserMessageId explanation (some "") isErr
      thumbnail id artifactId timestamp).codeArtifact = none ∧
    (∀ codeContext : Option String,
      (mkUserMessage content codeContext parentId thumbnail id artifactId
          timestamp).codeArtifact = none ↔
        (codeContext = none ∨ codeContext = some "")) ∧
    (∀ generatedCode : Option String,
      (mkAssistantMessage parentUserMessageId explanation generatedCode isErr
          thumbnail id artifactId timestamp).codeArtifact = none ↔
        (generatedCode = none ∨ generatedCode = some "")) := by
  refine ⟨rfl, rfl, ?_, ?_⟩
  · intro codeContext
    cases codeContext with
    | none => simp [mkUserMessage]
    | some c =>
      by_cases hc : c = "" <;> simp [mkUserMessage, hc]
  · intro generatedCode
    cases generatedCode with
    | none => simp [mkAssistantMessage]
    | some c =>
      by_cases hc : c = "" <;> simp [mkAssistantMessage, hc]

/-- Witness for C9: empty-string context attaches nothing, a non-empty one
attaches an artifact. -/
theorem artifact_truthiness_witness :
    (mkUserMessage "hi" (some "") none none "i" "a" 0).codeArtifact = none ∧
    (mkUserMessage "hi" (some "x") none none "i" "a" 0).codeArtifact ≠ none :=
  ⟨(artifact_truthiness "hi" none none "i" "a" 0 "p" "e" none).1,
   fun h => by
     simpa using
       ((artifact_truthiness "hi" none none "i" "a" 0 "p" "e" none).2.2.1
         (some "x")).mp h⟩

/-! ## C7: edit-as-sibling -/

theorem branchGet_branchSet_same (branches : String → Option Int)
    (key : String) (idx : Int) :
    branchGet (branchSet branches key idx) key = idx := by
  simp [branchGet, branchSet]

/-- **C7**: editing an existing user message creates a new user node that is
a sibling of the original (same `parentId`), carries the original node's
code context forward, and immediately — before any assistant response is
added — points the branch selector of that parent key at the new sibling's
index, which is exactly the position of the new node in the sibling list; a
root-level edit therefore makes the display sequence start with the new
node at once.  (The hypothesis on artifact codes holds for every store the
operations build, since attached artifacts always carry non-empty code.) -/
theorem handleEdit_sibling (s : ChatState) (userMessageId newContent : String)
    (newId artifactId : String) (timestamp : Nat) (orig : ChatMessageNode)
    (hfind : s.messages.find? (fun m => m.id == userMessageId) = some orig)
    (hcode : ∀ art, orig.codeArtifact = some art → art.code ≠ "") :
    ∃ s' node,
      handleEdit s userMessageId newContent newId artifactId timestamp =
        some (s', newId) ∧
      s'.messages = s.messages ++ [node] ∧
      node.parentId = orig.parentId ∧
      node.from_ = Role.user ∧
      node.content = newContent ∧
      node.codeArtifact.map (fun a => a.code) =
        orig.codeArtifact.map (fun a => a.code) ∧
      branchGet s'.activeBranches (orig.parentId.getD "root") =
        ((s.messages.filter (fun m =>
          m.parentId == orig.parentId && m.from_ == Role.user)).length : Int) ∧
      (s'.messages.filter (fun m =>
          m.parentId == orig.parentId && m.from_ == Role.user)).get?
        (s.messages.filter (fun m =>
          m.parentId == orig.parentId && m.from_ == Role.user)).length =
        some node ∧
      s'.taskState = s.taskState ∧
      (orig.parentId = none → (displayMessages s').head? = some node) := by
  set node := mkUserMessage newContent (orig.codeArtifact.map (fun a => a.code))
    orig.parentId (orig.codeArtifact.bind (fun a => a.thumbnail)) newId
    artifactId timestamp with hnode
  set s1 := addUserMessage s newContent
    (orig.codeArtifact.map (fun a => a.code)) orig.parentId
    (orig.codeArtifact.bind (fun a => a.thumbnail)) newId artifactId timestamp
    with hs1
  refine ⟨setActiveBranch s1 (orig.parentId.getD "root")
    (((s.messages.filter (fun m =>
      m.parentId == orig.parentId && m.from_ == Role.user)).length : Int)),
    node, ?_, ?_, ?_, ?_, ?_, ?_, ?_, ?_, ?_, ?_⟩
  · simp only [handleEdit, hfind]
  · rfl
  · rfl
  · rfl
  · rfl
  · cases hart : orig.codeArtifact with
    | none => simp [hnode, mkUserMessage, hart]
    | some art =>
      have hne := hcode art hart
      simp [hnode, mkUserMessage, hart, hne]
  · exact branchGet_branchSet_same _ _ _
  · have hmessages : (setActiveBranch s1 (orig.parentId.getD "root")
        (((s.messages.filter (fun m =>
          m.parentId == orig.parentId && m.from_ == Role.user)).length :
            Int))).messages = s.messages ++ [node] := rfl
    rw [hmessages, List.filter_append]
    have hpred : (fun m => m.parentId == orig.parentId &&
        m.from_ == Role.user) node = true := by
      simp [hnode, mkUserMessage]
    rw [show ([node].filter (fun m => m.parentId == orig.parentId &&
        m.from_ == Role.user)) = [node] by simp [List.filter, hpred]]
    exact List.get?_concat_length _ _
  · rfl
  · intro hroot
    have hmessages : (setActiveBranch s1 (orig.parentId.getD "root")
        (((s.messages.filter (fun m =>
          m.parentId == orig.parentId && m.from_ == Role.user)).length :
            Int))).messages = s.messages ++ [node] := rfl
    have hbranches : (setActiveBranch s1 (orig.parentId.getD "root")
        (((s.messages.filter (fun m =>
          m.parentId == orig.parentId && m.from_ == Role.user)).length :
            Int))).activeBranches =
        branchSet s.activeBranches "root"
          (((rootUsers s.messages).length : Int)) := by
      simp only [hroot, rootUsers]
      rfl
    have hroots : rootUsers (s.messages ++ [node]) =
        rootUsers s.messages ++ [node] := by
      rw [rootUsers, List.filter_append]
      congr 1
      have hpred : (fun m => m.parentId == none &&
          m.from_ == Role.user) node = true := by
        simp [hnode, mkUserMessage, hroot]
      simp [List.filter, hpred]
    simp only [displayMessages, hmessages, hbranches, hroots]
    rw [branchGet_branchSet_same]
    set L := (rootUsers s.messages).length with hL
    have hlen : (rootUsers s.messages ++ [node]).length = L + 1 := by
      simp [hL]
    rw [hlen]
    have hne : ¬ (L + 1 = 0) := by omega
    rw [if_neg hne]
    have hmin : min ((L : Int)) (((L + 1 : Nat) : Int) - 1) = (L : Int) := by
      push_cast
      omega
    rw [hmin, jsIndex_of_nonneg (by positivity), Int.toNat_natCast,
      List.get?_concat_length]
    apply traverse_head
    intro hzero
    simp at hzero

/-- Witness for C7: editing the root user message of a concrete conversation
creates a root-level sibling and the display sequence starts with it at
once. -/
theorem handleEdit_sibling_witness :
    ∃ s' node,
      handleEdit exState "u1" "make a sunrise instead" "u1b" "art1" 3 =
        some (s', "u1b") ∧
      s'.messages = exState.messages ++ [node] ∧
      node.parentId = none ∧
      (displayMessages s').head? = some node := by
  obtain ⟨s', node, h1, h2, h3, -, -, -, -, -, -, h10⟩ :=
    handleEdit_sibling exState "u1" "make a sunrise instead" "u1b" "art1" 3
      exUser (by decide) (fun art h => Option.noConfusion h)
  exact ⟨s', node, h1, h2, h3.trans rfl, h10 rfl⟩

/-! ## The descendant relation and the collection recursion -/

/-- One parent-pointer step: `b` is the id of a stored node whose `parentId`
is `a`. -/
def childStep (msgs : List ChatMessageNode) (a b : String) : Prop :=
  ∃ m ∈ msgs, m.id = b ∧ m.parentId = some a

/-- `b` is the id of a strict descendant of `a`: some nonempty `parentId`
chain leads from a stored node with id `b` up to `a`. -/
def Reaches (msgs : List ChatMessageNode) : String → String → Prop :=
  Relation.TransGen (childStep msgs)

/-- Acyclicity of the parent-pointer graph of a finite store, phrased as the
existence of a topological rank: children rank strictly higher than their
stored parents, and all ranks stay below the store size. -/
def Acyclic (msgs : List ChatMessageNode) : Prop :=
  ∃ rank : String → Nat,
    (∀ m ∈ msgs, rank m.id < msgs.length) ∧
    (∀ c ∈ msgs, ∀ p ∈ msgs, c.parentId = some p.id → rank p.id < rank c.id)

/-- The collection recursion never looks past its fuel: the store of the
source loops forever on this argument. -/
def collectDiverges (msgs : List ChatMessageNode) (id : String) : Prop :=
  ∀ fuel, collectDescendants msgs fuel id = none


theorem collectStep_none_left (msgs : List ChatMessageNode) (fuel : Nat)
    (c : ChatMessageNode) (acc : Option (List String))
    (h : collectDescendants msgs fuel c.id = none) :
    collectStep msgs fuel c acc = none := by
  unfold collectStep
  rw [h]

theorem collectStep_none_right (msgs : List ChatMessageNode) (fuel : Nat)
    (c : ChatMessageNode) : collectStep msgs fuel c none = none := by
  unfold collectStep
  cases collectDescendants msgs fuel c.id <;> rfl

theorem collectStep_some (msgs : List ChatMessageNode) (fuel : Nat)
    (c : ChatMessageNode) (sub rest : List String)
    (h : collectDescendants msgs fuel c.id = some sub) :
    collectStep msgs fuel c (some rest) = some (c.id :: (sub ++ rest)) := by
  unfold collectStep
  rw [h]

theorem collectStep_foldr_some {msgs : List ChatMessageNode} {fuel : Nat} :
    ∀ {cs : List ChatMessageNode} {ids : List String},
      cs.foldr (collectStep msgs fuel) (some []) = some ids →
      ∀ c ∈ cs, c.id ∈ ids ∧
        ∃ sub, collectDescendants msgs fuel c.id = some sub ∧
          ∀ y ∈ sub, y ∈ ids := by
  intro cs
  induction cs with
  | nil => intro ids _ c hc; simp at hc
  | cons c0 cs ih =>
    intro ids hfold c hc
    rw [List.foldr_cons] at hfold
    cases hc0 : collectDescendants msgs fuel c0.id with
    | none =>
      rw [collectStep_none_left msgs fuel c0 _ hc0] at hfold
      simp at hfold
    | some sub0 =>
      cases hrest : cs.foldr (collectStep msgs fuel) (some []) with
      | none =>
        rw [hrest, collectStep_none_right] at hfold
        simp at hfold
      | some rest =>
        rw [hrest, collectStep_some msgs fuel c0 sub0 rest hc0] at hfold
        simp only [Option.some.injEq] at hfold
        subst hfold
        rcases List.mem_cons.mp hc with rfl | hc
        · refine ⟨List.mem_cons_self _ _, sub0, hc0, ?_⟩
          intro y hy
          exact List.mem_cons_of_mem _ (List.mem_append_left _ hy)
        · obtain ⟨hid, sub, hsub, hsubset⟩ := ih hrest c hc
          refine ⟨List.mem_cons_of_mem _ (List.mem_append_right _ hid),
            sub, hsub, ?_⟩
          intro y hy
          exact List.mem_cons_of_mem _ (List.mem_append_right _ (hsubset y hy))

theorem collectStep_foldr_mem {msgs : List ChatMessageNode} {fuel : Nat} :
    ∀ {cs : List ChatMessageNode} {ids : List String},
      cs.foldr (collectStep msgs fuel) (some []) = some ids →
      ∀ x ∈ ids, ∃ c ∈ cs, x = c.id ∨
        ∃ sub, collectDescendants msgs fuel c.id = some sub ∧ x ∈ sub := by
  intro cs
  induction cs with
  | nil =>
    intro ids hfold x hx
    simp only [List.foldr_nil, Option.some.injEq] at hfold
    subst hfold
    simp at hx
  | cons c0 cs ih =>
    intro ids hfold x hx
    rw [List.foldr_cons] at hfold
    cases hc0 : collectDescendants msgs fuel c0.id with
    | none =>
      rw [collectStep_none_left msgs fuel c0 _ hc0] at hfold
      simp at hfold
    | some sub0 =>
      cases hrest : cs.foldr (collectStep msgs fuel) (some []) with
      | none =>
        rw [hrest, collectStep_none_right] at hfold
        simp at hfold
      | some rest =>
        rw [hrest, collectStep_some msgs fuel c0 sub0 rest hc0] at hfold
        simp only [Option.some.injEq] at hfold
        subst hfold
        rcases List.mem_cons.mp hx with rfl | hx
        · exact ⟨c0, List.mem_cons_self _ _, Or.inl rfl⟩
        rcases List.mem_append.mp hx with hx | hx
        · exact ⟨c0, List.mem_cons_self _ _, Or.inr ⟨sub0, hc0, hx⟩⟩
        · obtain ⟨c, hc, hor⟩ := ih hrest x hx
          exact ⟨c, List.mem_cons_of_mem _ hc, hor⟩

theorem collectStep_foldr_total {msgs : List ChatMessageNode} {fuel : Nat} :
    ∀ {cs : List ChatMessageNode},
      (∀ c ∈ cs, ∃ sub, collectDescendants msgs fuel c.id = some sub) →
      ∃ ids, cs.foldr (collectStep msgs fuel) (some []) = some ids := by
  intro cs
  induction cs with
  | nil => intro _; exact ⟨[], rfl⟩
  | cons c0 cs ih =>
    intro h
    obtain ⟨sub0, hc0⟩ := h c0 (List.mem_cons_self _ _)
    obtain ⟨rest, hrest⟩ := ih (fun c hc => h c (List.mem_cons_of_mem _ hc))
    refine ⟨c0.id :: (sub0 ++ rest), ?_⟩
    rw [List.foldr_cons, hrest, collectStep_some msgs fuel c0 sub0 rest hc0]

/-- Head decomposition of a transitive chain. -/
theorem transGen_cases_head {α : Type} {r : α → α → Prop} {a c : α}
    (h : Relation.TransGen r a c) :
    r a c ∨ ∃ b, r a b ∧ Relation.TransGen r b c := by
  obtain ⟨b, hab, hbc⟩ := Relation.TransGen.head'_iff.mp h
  rcases Relation.ReflTransGen.cases_head hbc with rfl | ⟨d, hbd, hdc⟩
  · exact Or.inl hab
  · exact Or.inr ⟨b, hab, Relation.TransGen.head' hbd hdc⟩

/-- Soundness of the collection: everything collected from `id` is the id of
a strict descendant of `id`. -/
theorem collect_sound (msgs : List ChatMessageNode) :
    ∀ (fuel : Nat) (id : String) (ids : List String),
      collectDescendants msgs fuel id = some ids →
      ∀ x ∈ ids, Reaches msgs id x := by
  intro fuel
  induction fuel with
  | zero => intro id ids h; simp [collectDescendants] at h
  | succ n ih =>
    intro id ids h x hx
    rw [collectDescendants_succ] at h
    obtain ⟨c, hc, hor⟩ := collectStep_foldr_mem h x hx
    have hcmem : c ∈ msgs := (List.mem_filter.mp hc).1
    have hcpar : c.parentId = some id := by
      have := (List.mem_filter.mp hc).2
      simpa using this
    have hstep : childStep msgs id c.id := ⟨c, hcmem, rfl, hcpar⟩
    rcases hor with rfl | ⟨sub, hsub, hxsub⟩
    · exact Relation.TransGen.single hstep
    · exact Relation.TransGen.head hstep (ih c.id sub hsub x hxsub)

/-- Completeness of the collection: when it returns, it has collected every
strict descendant of `id`. -/
theorem collect_complete (msgs : List ChatMessageNode) :
    ∀ (fuel : Nat) (id : String) (ids : List String),
      collectDescendants msgs fuel id = some ids →
      ∀ x, Reaches msgs id x → x ∈ ids := by
  intro fuel
  induction fuel with
  | zero => intro id ids h; simp [collectDescendants] at h
  | succ n ih =>
    intro id ids h x hx
    rw [collectDescendants_succ] at h
    rcases transGen_cases_head hx with hstep | ⟨b, hstep, hrest⟩
    · obtain ⟨m, hm, rfl, hmp⟩ := hstep
      have hmf : m ∈ msgs.filter (fun m => m.parentId == some id) := by
        simp [List.mem_filter, hm, hmp]
      exact (collectStep_foldr_some h m hmf).1
    · obtain ⟨m, hm, rfl, hmp⟩ := hstep
      have hmf : m ∈ msgs.filter (fun m => m.parentId == some id) := by
        simp [List.mem_filter, hm, hmp]
      obtain ⟨-, sub, hsub, hsubset⟩ := collectStep_foldr_some h m hmf
      exact hsubset x (ih m.id sub hsub x hrest)

/-- Fuel bound: below a topological rank the collection always returns. -/
theorem collect_total_of_rank (msgs : List ChatMessageNode)
    (rank : String → Nat)
    (hbound : ∀ m ∈ msgs, rank m.id < msgs.length)
    (hmono : ∀ c ∈ msgs, ∀ p ∈ msgs, c.parentId = some p.id →
      rank p.id < rank c.id) :
    ∀ (fuel : Nat) (id : String) (r : Nat),
      (∀ c ∈ msgs, c.parentId = some id → r ≤ rank c.id) →
      msgs.length - r < fuel →
      ∃ ids, collectDescendants msgs fuel id = some ids := by
  intro fuel
  induction fuel with
  | zero =>
    intro id r _ hlt
    exact absurd hlt (Nat.not_lt.mpr (Nat.zero_le _))
  | succ n ih =>
    intro id r hr hlt
    rw [collectDescendants_succ]
    apply collectStep_foldr_total
    intro c hc
    have hcmem : c ∈ msgs := (List.mem_filter.mp hc).1
    have hcpar : c.parentId = some id := by
      have := (List.mem_filter.mp hc).2
      simpa using this
    have hrc : r ≤ rank c.id := hr c hcmem hcpar
    have hcb : rank c.id < msgs.length := hbound c hcmem
    apply ih c.id (rank c.id + 1)
    · intro d hd hdp
      exact hmono d hd c hcmem hdp
    · omega

/-- Termination on acyclic stores: with the canonical fuel `msgs.length + 1`
the collection returns on every acyclic store. -/
theorem collect_terminates (msgs : List ChatMessageNode) (h : Acyclic msgs)
    (id : String) :
    ∃ ids, collectDescendants msgs (msgs.length + 1) id = some ids := by
  obtain ⟨rank, hbound, hmono⟩ := h
  apply collect_total_of_rank msgs rank hbound hmono (msgs.length + 1) id 0
  · intro c _ _
    exact Nat.zero_le _
  · omega

/-- On an acyclic store, ranks strictly increase along the descendant
relation (and every reached id is a stored id). -/
theorem rank_lt_of_reaches (msgs : List ChatMessageNode)
    (rank : String → Nat)
    (hmono : ∀ c ∈ msgs, ∀ p ∈ msgs, c.parentId = some p.id →
      rank p.id < rank c.id) :
    ∀ a x, (∃ m ∈ msgs, m.id = a) → Reaches msgs a x →
      rank a < rank x ∧ ∃ m ∈ msgs, m.id = x := by
  intro a x ha hx
  induction hx with
  | single h =>
    obtain ⟨m, hm, rfl, hmp⟩ := h
    obtain ⟨p, hp, hpa⟩ := ha
    have hpar : m.parentId = some p.id := by rw [hmp, hpa]
    exact ⟨hpa ▸ hmono m hm p hp hpar, m, hm, rfl⟩
  | tail hab hbc ih =>
    obtain ⟨h1, hb⟩ := ih
    obtain ⟨m, hm, rfl, hmp⟩ := hbc
    obtain ⟨p, hp, hpb⟩ := hb
    have hpar : m.parentId = some p.id := by rw [hmp, hpb]
    exact ⟨h1.trans (hpb ▸ hmono m hm p hp hpar), m, hm, rfl⟩

/-- No stored node is a strict descendant of itself on an acyclic store. -/
theorem not_reaches_self (msgs : List ChatMessageNode) (h : Acyclic msgs)
    (u : ChatMessageNode) (hu : u ∈ msgs) : ¬ Reaches msgs u.id u.id := by
  obtain ⟨rank, -, hmono⟩ := h
  intro hr
  have := (rank_lt_of_reaches msgs rank hmono u.id u.id ⟨u, hu, rfl⟩ hr).1
  omega

/-! ## C2: subtree deletion completeness -/

/-- **C2**: for a user message present in the store, once the retry's
descendant collection completes, no node remains whose ancestor chain passes
through a deleted assistant child of that user message: neither the
assistant response itself nor any of its descendants survives.  (The
collection hypothesis holds for every acyclic store, see
`deleteDescendants_terminates`.) -/
theorem retry_subtree_deletion (s : ChatState) (userMessageId : String)
    (u : ChatMessageNode) (ids : List String)
    (hfind : s.messages.find? (fun m => m.id == userMessageId) = some u)
    (huser : u.from_ = Role.user)
    (hterm : collectDescendants s.messages (s.messages.length + 1)
      userMessageId = some ids) :
    ∃ s', prepareRetry s userMessageId =
        some (some { content := u.content
                     codeContext := u.codeArtifact.map (fun a => a.code) },
              s') ∧
      ∀ a ∈ s.messages, a.parentId = some userMessageId →
        a.from_ = Role.assistant →
        ∀ m ∈ s'.messages,
          m.id ≠ a.id ∧ ¬ Reaches s.messages a.id m.id := by
  have hdel : deleteDescendants s.messages userMessageId =
      some (s.messages.filter (fun m => !(ids.contains m.id))) := by
    simp [deleteDescendants, hterm]
  refine ⟨{ s with messages :=
      s.messages.filter (fun m => !(ids.contains m.id)) }, ?_, ?_⟩
  · simp [prepareRetry, hfind, huser, hdel]
  · intro a ha hapar hafrom m hm
    rw [List.mem_filter] at hm
    have hmid : m.id ∉ ids := by simpa using hm.2
    have haid : a.id ∈ ids :=
      collect_complete s.messages _ userMessageId ids hterm a.id
        (Relation.TransGen.single ⟨a, ha, rfl, hapar⟩)
    constructor
    · intro heq
      exact hmid (heq ▸ haid)
    · intro hreach
      have : Reaches s.messages userMessageId m.id :=
        (Relation.TransGen.single
          (⟨a, ha, rfl, hapar⟩ : childStep s.messages userMessageId a.id)).trans
          hreach
      exact hmid (collect_complete s.messages _ userMessageId ids hterm m.id this)

/-- Witness for C2 on the concrete three-node conversation: retrying the
root user message leaves only the user node, which is neither the deleted
assistant response nor one of its descendants. -/
theorem retry_subtree_deletion_witness :
    prepareRetry exState "u1" =
      some (some { content := "make a sunset", codeContext := none },
        { messages := [exUser], activeBranches := noBranches,
          taskState := INITIAL_TASK_STATE }) ∧
    exUser.id ≠ exAssistant.id ∧
    ¬ Reaches exState.messages exAssistant.id exUser.id := by
  obtain ⟨s', h1, h2⟩ :=
    retry_subtree_deletion exState "u1" exUser ["a1", "u2"] (by decide)
      (by decide) (by decide)
  have hs' : s'.messages = [exUser] := by
    have hcalc : prepareRetry exState "u1" =
        some (some { content := "make a sunset", codeContext := none },
          { messages := [exUser], activeBranches := noBranches,
            taskState := INITIAL_TASK_STATE }) := rfl
    rw [h1] at hcalc
    simp only [Option.some.injEq, Prod.mk.injEq] at hcalc
    rw [hcalc.2]
  have h3 := h2 exAssistant (by decide) (by decide) (by decide) exUser
    (by rw [hs']; exact List.mem_cons_self _ _)
  exact ⟨rfl, h3⟩

/-! ## C4: termination of subtree deletion (corrected) -/

/-- A user message whose `parentId` points at its own assistant response:
the two nodes form a `parentId` cycle. -/
def cycUser : ChatMessageNode :=
  { id := "u", parentId := some "a", from_ := .user, content := "loop",
    timestamp := 0 }

def cycAssistant : ChatMessageNode :=
  { id := "a", parentId := some "u", from_ := .assistant, content := "loop",
    timestamp := 1 }

def cycMessages : List ChatMessageNode := [cycUser, cycAssistant]

def cycState : ChatState :=
  { messages := cycMessages, activeBranches := noBranches,
    taskState := INITIAL_TASK_STATE }

theorem collect_cyc (fuel : Nat) :
    collectDescendants cycMessages fuel "u" = none ∧
      collectDescendants cycMessages fuel "a" = none := by
  induction fuel with
  | zero => exact ⟨rfl, rfl⟩
  | succ n ih =>
    constructor
    · rw [collectDescendants_succ]
      rw [show cycMessages.filter (fun m => m.parentId == some "u") =
        [cycAssistant] by decide]
      rw [List.foldr_cons, List.foldr_nil,
        collectStep_none_left cycMessages n cycAssistant _ ih.2]
    · rw [collectDescendants_succ]
      rw [show cycMessages.filter (fun m => m.parentId == some "a") =
        [cycUser] by decide]
      rw [List.foldr_cons, List.foldr_nil,
        collectStep_none_left cycMessages n cycUser _ ih.1]

/-- **C4 counterexample**: on a store whose `parentId` relation contains a
cycle through the stored user node `"u"`, descendant collection returns for
*no* recursion depth — the source recursion loops forever, because there is
no visited-set check before the recursive call — so subtree deletion and the
retry that invokes it never complete. -/
theorem deleteDescendants_cycle_counterexample :
    collectDiverges cycMessages "u" ∧
      deleteDescendants cycMessages "u" = none ∧
      prepareRetry cycState "u" = none ∧
      (∃ m ∈ cycMessages, m.id = "u" ∧ m.from_ = Role.user) := by
  exact ⟨fun fuel => (collect_cyc fuel).1, rfl, rfl,
    ⟨cycUser, by decide, rfl, rfl⟩⟩

/-- **C4 (amended)**: subtree deletion terminates for every finite *acyclic*
message store — the descendant collection returns within recursion depth
`size + 1` — but the second half of the original claim fails: there is no
visited-set guard in the collection recursion, and on a store whose
`parentId` relation contains a cycle through the deleted node it loops
forever (see the counterexample). -/
theorem deleteDescendants_terminates (msgs : List ChatMessageNode)
    (h : Acyclic msgs) (parentId : String) :
    ∃ msgs', deleteDescendants msgs parentId = some msgs' := by
  obtain ⟨ids, hids⟩ := collect_terminates msgs h parentId
  refine ⟨msgs.filter (fun m => !(ids.contains m.id)), ?_⟩
  unfold deleteDescendants
  rw [hids]
  rfl

/-- Witness for the amended C4 on a concrete acyclic store, with the
topological rank given explicitly. -/
theorem deleteDescendants_terminates_witness :
    ∃ msgs', deleteDescendants exMessages "u1" = some msgs' :=
  deleteDescendants_terminates exMessages
    ⟨fun s => if s = "u1" then 0 else if s = "a1" then 1 else 2,
     by decide, by decide⟩ "u1"

/-! ## C10: retry deletes only strict descendants -/

/-- **C10**: on an acyclic store, retrying a stored user message keeps the
user node itself, keeps every node that is not a strict descendant of it,
removes nothing but stored nodes, and leaves the branch-selector map and the
task state untouched. -/
theorem retry_frame (s : ChatState) (userMessageId : String)
    (u : ChatMessageNode)
    (hfind : s.messages.find? (fun m => m.id == userMessageId) = some u)
    (huser : u.from_ = Role.user)
    (hacyc : Acyclic s.messages) :
    ∃ s', prepareRetry s userMessageId =
        some (some { content := u.content
                     codeContext := u.codeArtifact.map (fun a => a.code) },
              s') ∧
      s'.activeBranches = s.activeBranches ∧
      s'.taskState = s.taskState ∧
      u ∈ s'.messages ∧
      (∀ m ∈ s.messages, ¬ Reaches s.messages userMessageId m.id →
        m ∈ s'.messages) ∧
      (∀ m ∈ s'.messages, m ∈ s.messages) := by
  obtain ⟨ids, hterm⟩ := collect_terminates s.messages hacyc userMessageId
  have hdel : deleteDescendants s.messages userMessageId =
      some (s.messages.filter (fun m => !(ids.contains m.id))) := by
    simp [deleteDescendants, hterm]
  have huid : u.id = userMessageId := by
    have := List.find?_some hfind
    simpa using this
  have humem : u ∈ s.messages := List.mem_of_find?_eq_some hfind
  have hnotmem : ∀ m ∈ s.messages, ¬ Reaches s.messages userMessageId m.id →
      m ∈ s.messages.filter (fun m => !(ids.contains m.id)) := by
    intro m hm hnr
    rw [List.mem_filter]
    refine ⟨hm, ?_⟩
    simp only [Bool.not_eq_true', ← Bool.not_eq_true]
    intro hcont
    have hin : m.id ∈ ids := by simpa using hcont
    exact hnr (collect_sound s.messages _ userMessageId ids hterm m.id hin)
  refine ⟨{ s with messages :=
      s.messages.filter (fun m => !(ids.contains m.id)) }, ?_, rfl, rfl,
    ?_, hnotmem, ?_⟩
  · simp [prepareRetry, hfind, huser, hdel]
  · apply hnotmem u humem
    rw [huid]
    have : ¬ Reaches s.messages u.id u.id := not_reaches_self s.messages hacyc u humem
    rw [huid] at this
    exact this
  · intro m hm
    exact (List.mem_filter.mp hm).1

/-- Witness for C10: on the concrete three-node conversation (with its
explicit topological rank) the retry keeps the user node and touches neither
the selector map nor the task state. -/
theorem retry_frame_witness :
    ∃ s', prepareRetry exState "u1" =
        some (some { content := "make a sunset", codeContext := none }, s') ∧
      s'.activeBranches = exState.activeBranches ∧
      s'.taskState = exState.taskState ∧
      exUser ∈ s'.messages := by
  obtain ⟨s', h1, h2, h3, h4, -, -⟩ :=
    retry_frame exState "u1" exUser (by decide) (by decide)
      ⟨fun s => if s = "u1" then 0 else if s = "a1" then 1 else 2,
       by decide, by decide⟩
  exact ⟨s', h1, h2, h3, h4⟩
